import Mathlib

/-!
Verification of the event-generation and aggregation pipeline of the
log-emitter repository (`src/emitter`).

The development shallowly embeds the Rust source:

* `LogLevel`, `LogLevelWeights`, `LogEntry` mirror `log_entry.rs` and
  `config.rs`.  Floating-point weights, rolls and embedding coordinates are
  modelled as rationals (`ℚ`); the exponential inter-arrival delay, which
  uses `ln`, is modelled over the reals (`ℝ`).
* `pick_level`, `jitter_embedding`, `generate_log`, `mean_interval_ms` and
  `delay_ms` embed the functions of `emitter.rs`.  Randomness is made
  explicit: each random draw of the source becomes a parameter constrained
  to the range the source draws from.  A Rust `panic!` (the empty-range
  `gen_range`) becomes `Option.none`.
* `Buffer.run` embeds the consumer loop of `buffer.rs` as a recursion over a
  finite trace of channel outcomes (`RecvResult`): an event was received, the
  timeout fired, or the channel closed.  `Buffer.flush` and the sink fan-out
  are embedded with sinks as explicit state (`SinkModel`), recording every
  batch each sink receives together with whether its write succeeds.
-/

/-- Severity levels, from `log_entry.rs`. -/
inductive LogLevel : Type where
  | Debug
  | Info
  | Warn
  | Error
deriving DecidableEq, Repr

/-- Per-service severity weights, from `config.rs` (`LogLevelWeights`). -/
structure LogLevelWeights : Type where
  debug : ℚ
  info : ℚ
  warn : ℚ
  error : ℚ
deriving DecidableEq, Repr

/-- `let total = weights.debug + weights.info + weights.warn + weights.error`
in `pick_level` (`emitter.rs`). -/
def LogLevelWeights.total (w : LogLevelWeights) : ℚ :=
  w.debug + w.info + w.warn + w.error

/-- `pick_level` from `emitter.rs`.  The uniform draw `rng.gen_range(0.0..total)`
is made explicit as the parameter `roll`; in Rust the draw panics when the
range `0.0..total` is empty, i.e. when `total ≤ 0`, which we model as `none`. -/
def pick_level (w : LogLevelWeights) (roll : ℚ) : Option LogLevel :=
  if w.total ≤ 0 then none
  else if roll < w.debug then some LogLevel.Debug
  else if roll < w.debug + w.info then some LogLevel.Info
  else if roll < w.debug + w.info + w.warn then some LogLevel.Warn
  else some LogLevel.Error

/-- The spec's wording for severity selection: walk the cumulative order
Debug→Info→Warn→Error and return the first bucket whose cumulative weight
exceeds the roll. -/
def pickLevelSpec (w : LogLevelWeights) (roll : ℚ) : Option LogLevel :=
  (([(LogLevel.Debug, w.debug),
     (LogLevel.Info, w.debug + w.info),
     (LogLevel.Warn, w.debug + w.info + w.warn),
     (LogLevel.Error, w.debug + w.info + w.warn + w.error)]).find?
    (fun p => roll < p.2)).map Prod.fst

/-- `jitter_embedding` from `emitter.rs`:
`noise = rng.gen_range(-1.0f32..1.0) * scale * v.abs().max(0.01); v + noise`.
The per-coordinate uniform draws from `[-1, 1)` are made explicit as the
list `rolls`, consumed positionally. -/
def jitter_embedding (embedding : List ℚ) (scale : ℚ) (rolls : List ℚ) : List ℚ :=
  List.zipWith (fun v r => v + r * scale * max |v| (1 / 100)) embedding rolls

/-- A log event, from `log_entry.rs` (`LogEntry`).  The timestamp is opaque
to every property proved here and is modelled as an integer. -/
structure LogEntry : Type where
  id : String
  timestamp : ℤ
  service : String
  level : LogLevel
  message : String
  embedding : List ℚ
deriving DecidableEq

/-- `generate_log` from `emitter.rs`.  The fresh uuid and the timestamp are
external inputs (`id`, `timestamp`); the severity roll, the message picked
from the pool, and the jitter draws are the explicit random inputs.  The
embedding lookup `embeddings.get(message).cloned().unwrap_or_default()`
keeps its `Option` shape in the `lookup` map; the jitter scale is the
hard-coded `0.01` of the source.  `none` models the `pick_level` panic. -/
def generate_log (id : String) (timestamp : ℤ) (service : String)
    (w : LogLevelWeights) (roll : ℚ) (msg : String)
    (lookup : String → Option (List ℚ)) (rolls : List ℚ) : Option LogEntry :=
  match pick_level w roll with
  | none => none
  | some level =>
      some { id := id
             timestamp := timestamp
             service := service
             level := level
             message := msg
             embedding := jitter_embedding ((lookup msg).getD []) (1 / 100) rolls }

/-- `mean_interval_ms = 1000.0 / service.rate_per_sec` in `emit_logs`
(`emitter.rs`). -/
noncomputable def mean_interval_ms (rate_per_sec : ℝ) : ℝ :=
  1000 / rate_per_sec

/-- `delay_ms = -mean_interval_ms * u.ln()` in `emit_logs` (`emitter.rs`),
before the truncating cast to `u64`; `u` is the uniform draw from
`f64::EPSILON..1.0`. -/
noncomputable def delay_ms (rate_per_sec u : ℝ) : ℝ :=
  -mean_interval_ms rate_per_sec * Real.log u

/-- One outcome of `tokio::time::timeout(timeout, self.rx.recv())` in
`Buffer::run` (`buffer.rs`): `Ok(Some(entry))`, `Ok(None)` (channel closed),
or `Err(_)` (the flush timer expired). -/
inductive RecvResult (α : Type) : Type where
  | recv (e : α)
  | closed
  | timeout
deriving DecidableEq, Repr

/-- Which branch of `Buffer::run` triggered a flush: the capacity check
after a push, the expired flush timer, or the final drain on channel
closure. -/
inductive FlushReason : Type where
  | cap
  | timer
  | drain
deriving DecidableEq, Repr

namespace Buffer

/-- The consumer loop `Buffer::run` (`buffer.rs`), as a recursion over the
finite trace of channel outcomes the `tokio::time::timeout(_, rx.recv())`
select produces.  `entries` is the current batch; a flush hands the batch
off and replaces `entries` by a fresh empty vector (`std::mem::replace`).
The result is the list of flushed batches in flush order, each tagged with
the branch that triggered it.  On `closed` the loop breaks, so the rest of
the trace is ignored; a trace that runs out before `closed` models a still
running loop, which has produced no further flushes yet. -/
def run {α : Type} (capacity : ℕ) (entries : List α) :
    List (RecvResult α) → List (FlushReason × List α)
  | [] => []
  | RecvResult.recv e :: rest =>
      let es := entries ++ [e]
      if capacity ≤ es.length then
        (FlushReason.cap, es) :: run capacity [] rest
      else
        run capacity es rest
  | RecvResult.closed :: _ =>
      if entries.isEmpty then [] else [(FlushReason.drain, entries)]
  | RecvResult.timeout :: rest =>
      if entries.isEmpty then run capacity entries rest
      else (FlushReason.timer, entries) :: run capacity [] rest

/-- Whether `Buffer::run` has executed its `break` by the end of the trace:
mirrors the loop of `run`, returning `true` exactly on the `Ok(None)`
branch. -/
def terminated {α : Type} (capacity : ℕ) (entries : List α) :
    List (RecvResult α) → Bool
  | [] => false
  | RecvResult.recv e :: rest =>
      let es := entries ++ [e]
      if capacity ≤ es.length then terminated capacity [] rest
      else terminated capacity es rest
  | RecvResult.closed :: _ => true
  | RecvResult.timeout :: rest =>
      if entries.isEmpty then terminated capacity entries rest
      else terminated capacity [] rest

/-- The events delivered by the channel along a trace, in arrival order:
the `Ok(Some(entry))` outcomes. -/
def sentEvents {α : Type} : List (RecvResult α) → List α :=
  List.filterMap fun r =>
    match r with
    | RecvResult.recv e => some e
    | _ => none

end Buffer

/-- A sink (`trait Sink`, `sink.rs`) as observable state: `fails` says
whether `write` returns `Err` on a given batch, and `received` records every
batch `write` has been called with, in call order. -/
structure SinkModel (α : Type) : Type where
  fails : List α → Bool
  received : List (List α)

/-- One `sink.write(&batch)` call: the sink records the batch; the returned
flag is `true` on `Ok(())`. -/
def SinkModel.write {α : Type} (s : SinkModel α) (batch : List α) :
    SinkModel α × Bool :=
  ({ s with received := s.received ++ [batch] }, !s.fails batch)

namespace Buffer

/-- `Buffer::flush` (`buffer.rs`): `for sink in &self.sinks` calls `write`
on every sink in registration order with the detached batch; an `Err` is
only printed (`eprintln!`) — recorded here as a `false` in the result
list — and the loop continues with the next sink. -/
def flush {α : Type} : List (SinkModel α) → List α → List (SinkModel α) × List Bool
  | [], _ => ([], [])
  | s :: rest, batch =>
      let r := s.write batch
      let rr := flush rest batch
      (r.1 :: rr.1, r.2 :: rr.2)

/-- The whole pipeline observed at the sinks: every batch flushed by
`Buffer.run` is dispatched by `Buffer.flush` to the sink set, in flush
order. -/
def pipeline {α : Type} (capacity : ℕ) (sinks : List (SinkModel α))
    (trace : List (RecvResult α)) : List (SinkModel α) :=
  (run capacity [] trace).foldl (fun ss b => (flush ss b.2).1) sinks

end Buffer


/-! ## Severity selection (`pick_level`) -/

/-- Evaluating the spec's cumulative walk to the same nested conditional
shape as the source, for comparison. -/
theorem pickLevelSpec_eval (w : LogLevelWeights) (roll : ℚ) :
    pickLevelSpec w roll =
      (if roll < w.debug then some LogLevel.Debug
       else if roll < w.debug + w.info then some LogLevel.Info
       else if roll < w.debug + w.info + w.warn then some LogLevel.Warn
       else if roll < w.total then some LogLevel.Error
       else none) := by
  unfold pickLevelSpec LogLevelWeights.total
  by_cases h1 : roll < w.debug <;>
    by_cases h2 : roll < w.debug + w.info <;>
      by_cases h3 : roll < w.debug + w.info + w.warn <;>
        by_cases h4 : roll < w.debug + w.info + w.warn + w.error <;>
          simp [List.find?, h1, h2, h3, h4]

/-- Claim C3: for non-negative weights that are not all zero and a roll in
`[0, total)`, `pick_level` returns exactly the first bucket of the
cumulative order Debug→Info→Warn→Error whose cumulative weight exceeds the
roll (half-open intervals — a roll at a boundary belongs to the next
bucket), a severity of weight `0` is never returned, and with weights
`{debug := 1, info := 0, warn := 0, error := 0}` the result is always
`Debug`. -/
theorem pick_level_follows_spec (w : LogLevelWeights) (roll : ℚ)
    (hd : 0 ≤ w.debug) (hi : 0 ≤ w.info) (hw : 0 ≤ w.warn) (he : 0 ≤ w.error)
    (h0 : 0 ≤ roll) (hroll : roll < w.total) :
    pick_level w roll = pickLevelSpec w roll
    ∧ (w.debug = 0 → pick_level w roll ≠ some LogLevel.Debug)
    ∧ (w.info = 0 → pick_level w roll ≠ some LogLevel.Info)
    ∧ (w.warn = 0 → pick_level w roll ≠ some LogLevel.Warn)
    ∧ (w.error = 0 → pick_level w roll ≠ some LogLevel.Error)
    ∧ (roll = w.debug → pick_level w roll ≠ some LogLevel.Debug)
    ∧ (w = ⟨1, 0, 0, 0⟩ → pick_level w roll = some LogLevel.Debug)
    := by
  have htot : 0 < w.total := lt_of_le_of_lt h0 hroll
  rw [pickLevelSpec_eval]
  unfold pick_level LogLevelWeights.total at *
  split_ifs <;> simp_all <;>
    first
      | linarith
      | (constructor <;> intro h <;> (try subst h) <;> (try simp_all) <;> linarith)

/-- Witness for C3 at weights `{1, 0, 0, 0}` and roll `1/2`. -/
theorem pick_level_follows_spec_witness :
    pick_level ⟨1, 0, 0, 0⟩ (1 / 2) = pickLevelSpec ⟨1, 0, 0, 0⟩ (1 / 2)
    ∧ pick_level ⟨1, 0, 0, 0⟩ (1 / 2) = some LogLevel.Debug := by
  have h := pick_level_follows_spec ⟨1, 0, 0, 0⟩ (1 / 2) (by norm_num)
    (by norm_num) (by norm_num) (by norm_num) (by norm_num)
    (by norm_num [LogLevelWeights.total])
  exact ⟨h.1, h.2.2.2.2.2.2 rfl⟩

/-- Claim C10: with a strictly positive weight total the uniform draw's
range `0.0..total` is non-empty, so `pick_level` always returns a level;
when the total is non-positive — in particular when all four weights are
zero — the draw panics (modelled as `none`), and `generate_log` aborts
with it instead of producing a default or an error value. -/
theorem pick_level_total_guard (w : LogLevelWeights) (roll : ℚ) :
    (0 < w.total → (pick_level w roll).isSome = true)
    ∧ (w.total ≤ 0 → pick_level w roll = none)
    ∧ (w.debug = 0 ∧ w.info = 0 ∧ w.warn = 0 ∧ w.error = 0 →
        pick_level w roll = none
        ∧ ∀ (id : String) (ts : ℤ) (sv msg : String)
            (lookup : String → Option (List ℚ)) (rolls : List ℚ),
            generate_log id ts sv w roll msg lookup rolls = none) := by
  refine ⟨?_, ?_, ?_⟩
  · intro hpos
    unfold pick_level
    split_ifs with h1 h2 h3 h4 <;>
      first | rfl | (exfalso; exact absurd h1 (not_le.mpr hpos))
  · intro hle
    unfold pick_level
    rw [if_pos hle]
  · rintro ⟨h1, h2, h3, h4⟩
    have hnone : pick_level w roll = none := by
      unfold pick_level
      rw [if_pos (by unfold LogLevelWeights.total; rw [h1, h2, h3, h4]; norm_num)]
    refine ⟨hnone, ?_⟩
    intro id ts sv msg lookup rolls
    unfold generate_log
    rw [hnone]

/-- Witness for C10: a positive total selects a level; the all-zero weight
vector makes both `pick_level` and `generate_log` abort. -/
theorem pick_level_total_guard_witness :
    (pick_level ⟨1, 0, 0, 0⟩ (1 / 2)).isSome = true
    ∧ pick_level ⟨0, 0, 0, 0⟩ 0 = none
    ∧ generate_log "id" 0 "svc" ⟨0, 0, 0, 0⟩ 0 "m" (fun _ => none) [] = none := by
  refine ⟨(pick_level_total_guard ⟨1, 0, 0, 0⟩ (1 / 2)).1
      (by norm_num [LogLevelWeights.total]), ?_, ?_⟩
  · exact ((pick_level_total_guard ⟨0, 0, 0, 0⟩ 0).2.2
      (by norm_num)).1
  · exact ((pick_level_total_guard ⟨0, 0, 0, 0⟩ 0).2.2
      (by norm_num)).2 "id" 0 "svc" "m" (fun _ => none) []

/-! ## Exponential inter-arrival delay (`emit_logs`) -/

/-- Claim C7: the producer's inter-arrival delay is the exponential sample
`-mean_interval_ms * ln u` with `mean_interval_ms = 1000 / rate_per_sec`,
and for any positive rate and any `u` drawn from `[ε, 1)` with `ε > 0`
(zero excluded) the delay is non-negative (and, over the reals, finite by
construction). -/
theorem emit_delay_formula (rate u eps : ℝ) (hrate : 0 < rate)
    (heps : 0 < eps) (hu : eps ≤ u) (hu1 : u < 1) :
    delay_ms rate u = -(1000 / rate) * Real.log u ∧ 0 ≤ delay_ms rate u := by
  have hu0 : 0 < u := lt_of_lt_of_le heps hu
  have hlog : Real.log u ≤ 0 := Real.log_nonpos (le_of_lt hu0) (le_of_lt hu1)
  refine ⟨rfl, ?_⟩
  unfold delay_ms mean_interval_ms
  have h1 : 0 ≤ 1000 / rate := by positivity
  have h2 : -(1000 / rate) * Real.log u = 1000 / rate * -Real.log u := by ring
  rw [h2]
  exact mul_nonneg h1 (neg_nonneg.mpr hlog)

/-- Witness for C7 at rate `1`, `u = 1/2`, `ε = 1/2`. -/
theorem emit_delay_formula_witness : 0 ≤ delay_ms 1 (1 / 2) :=
  (emit_delay_formula 1 (1 / 2) (1 / 2) (by norm_num) (by norm_num)
    (by norm_num) (by norm_num)).2

/-! ## Embedding lookup miss and jitter (`generate_log`, `jitter_embedding`) -/

/-- Claim C8: a message absent from the embedding lookup is not an error:
`generate_log` still produces an event, whose embedding is the empty
vector (the jitter of the defaulted empty vector is empty). -/
theorem generate_log_miss_empty (id : String) (ts : ℤ) (sv msg : String)
    (w : LogLevelWeights) (roll : ℚ) (lookup : String → Option (List ℚ))
    (rolls : List ℚ) (hmiss : lookup msg = none) (hpos : 0 < w.total) :
    ∃ e, generate_log id ts sv w roll msg lookup rolls = some e
      ∧ e.embedding = [] := by
  unfold generate_log pick_level
  have : ¬ w.total ≤ 0 := not_le.mpr hpos
  split_ifs <;> simp_all [jitter_embedding]

/-- Witness for C8 at a lookup with no entries. -/
theorem generate_log_miss_empty_witness :
    Option.map (fun e => e.embedding)
        (generate_log "id" 0 "svc" ⟨1, 0, 0, 0⟩ (1 / 2) "m" (fun _ => none) [])
      = some [] := by
  obtain ⟨e, he, hemb⟩ := generate_log_miss_empty "id" 0 "svc" "m" ⟨1, 0, 0, 0⟩
    (1 / 2) (fun _ => none) [] rfl (by norm_num [LogLevelWeights.total])
  rw [he]
  simp [hemb]

/-- Counterexample to claim C9 as stated: at the coordinate `v = 0` with
scale `1/100` and jitter roll `1/2`, the jittered coordinate moves by
`1/20000 > 0 = scale * |v|` — the code's bound is
`scale * max |v| (1/100)`, not `scale * |v|`. -/
theorem jitter_claim_cex :
    ¬ (∀ i : ℕ,
        |(jitter_embedding [0] (1 / 100) [1 / 2]).getD i 0
            - ([0] : List ℚ).getD i 0|
          ≤ (1 / 100) * |([0] : List ℚ).getD i 0|) := by
  intro h
  have h0 := h 0
  norm_num [jitter_embedding] at h0

/-- Coordinatewise jitter bound, by induction over the vector and the
roll list. -/
theorem jitter_bound_aux (scale : ℚ) (hscale : 0 ≤ scale) :
    ∀ (embedding rolls : List ℚ), rolls.length = embedding.length →
      (∀ r ∈ rolls, -1 ≤ r ∧ r < 1) → ∀ i : ℕ,
      |(jitter_embedding embedding scale rolls).getD i 0 - embedding.getD i 0|
        ≤ scale * max |embedding.getD i 0| (1 / 100)
  | [], rolls, hlen, hr, i => by
      simp only [jitter_embedding, List.zipWith_nil_left, List.getD_nil]
      norm_num
      positivity
  | v :: vs, [], hlen, hr, i => by
      simp at hlen
  | v :: vs, r :: rs, hlen, hr, 0 => by
      simp only [jitter_embedding, List.zipWith_cons_cons, List.getD_cons_zero]
      have hM : (0 : ℚ) < max |v| (1 / 100) := lt_max_of_lt_right (by norm_num)
      have hmem := hr r (by simp)
      have habs : |r| ≤ 1 := abs_le.mpr ⟨hmem.1, le_of_lt hmem.2⟩
      have hre : v + r * scale * max |v| (1 / 100) - v
          = r * (scale * max |v| (1 / 100)) := by ring
      rw [hre, abs_mul, abs_of_nonneg (mul_nonneg hscale (le_of_lt hM))]
      exact mul_le_of_le_one_left (mul_nonneg hscale (le_of_lt hM)) habs
  | v :: vs, r :: rs, hlen, hr, (i + 1) => by
      simp only [jitter_embedding, List.zipWith_cons_cons, List.getD_cons_succ]
      exact jitter_bound_aux scale hscale vs rs (by simpa using hlen)
        (fun x hx => hr x (by simp [hx])) i

/-- Claim C9, amended: the jitter is a bounded multiplicative perturbation
with a magnitude floor — each coordinate moves by at most
`scale * max |v i| (1/100)` (for rolls in the drawn range `[-1, 1)` and a
non-negative scale), not by at most `scale * |v i|`; the jittered vector
has the same length as the input. -/
theorem jitter_embedding_bounded (embedding rolls : List ℚ) (scale : ℚ)
    (hscale : 0 ≤ scale) (hlen : rolls.length = embedding.length)
    (hrolls : ∀ r ∈ rolls, -1 ≤ r ∧ r < 1) :
    (jitter_embedding embedding scale rolls).length = embedding.length
    ∧ ∀ i : ℕ,
        |(jitter_embedding embedding scale rolls).getD i 0 - embedding.getD i 0|
          ≤ scale * max |embedding.getD i 0| (1 / 100) :=
  ⟨by simp [jitter_embedding, hlen],
   jitter_bound_aux scale hscale embedding rolls hlen hrolls⟩

/-- Witness for C9 (amended) at the vector `[1, 0]` with rolls
`[1/2, -1]`. -/
theorem jitter_embedding_bounded_witness :
    (jitter_embedding [1, 0] (1 / 100) [1 / 2, -1]).length
        = ([1, 0] : List ℚ).length
    ∧ |(jitter_embedding [1, 0] (1 / 100) [1 / 2, -1]).getD 0 0
          - ([1, 0] : List ℚ).getD 0 0|
        ≤ (1 / 100) * max |([1, 0] : List ℚ).getD 0 0| (1 / 100)
    ∧ |(jitter_embedding [1, 0] (1 / 100) [1 / 2, -1]).getD 1 0
          - ([1, 0] : List ℚ).getD 1 0|
        ≤ (1 / 100) * max |([1, 0] : List ℚ).getD 1 0| (1 / 100) := by
  have h := jitter_embedding_bounded [1, 0] [1 / 2, -1] (1 / 100)
    (by norm_num) (by norm_num) (by intro r hr; fin_cases hr <;> norm_num)
  exact ⟨h.1, h.2 0, h.2 1⟩

/-! ## Buffer batch sizing and delivery (`Buffer::run`, `Buffer::flush`) -/

/-- Invariant of the consumer loop: starting below capacity, every flushed
batch has size in `[1, capacity]`, and a capacity-triggered flush has size
exactly `capacity`. -/
theorem run_batch_bounds {α : Type} (capacity : ℕ) :
    ∀ (t : List (RecvResult α)) (entries : List α), entries.length < capacity →
      ∀ b ∈ Buffer.run capacity entries t,
        (1 ≤ b.2.length ∧ b.2.length ≤ capacity)
        ∧ (b.1 = FlushReason.cap → b.2.length = capacity) := by
  intro t
  induction t with
  | nil => intro entries _ b hb; simp [Buffer.run] at hb
  | cons r rest ih =>
    intro entries hlen b hb
    cases r with
    | recv e =>
      simp only [Buffer.run] at hb
      by_cases hc : capacity ≤ (entries ++ [e]).length
      · rw [if_pos hc] at hb
        rcases List.mem_cons.mp hb with hb | hb
        · subst hb
          simp only [List.length_append, List.length_singleton] at hc ⊢
          refine ⟨⟨?_, ?_⟩, fun _ => ?_⟩ <;> omega
        · exact ih [] (by simpa using Nat.zero_lt_of_lt hlen) b hb
      · rw [if_neg hc] at hb
        exact ih (entries ++ [e]) (by simp at hc ⊢; omega) b hb
    | closed =>
      simp only [Buffer.run] at hb
      by_cases he : entries.isEmpty
      · rw [if_pos he] at hb; simp at hb
      · rw [if_neg he] at hb
        have hb2 := List.mem_singleton.mp hb
        subst hb2
        dsimp only
        have hne : entries ≠ [] := by simpa [List.isEmpty_iff] using he
        have hpos : 0 < entries.length := List.length_pos.mpr hne
        refine ⟨⟨?_, ?_⟩, fun hcontr => ?_⟩
        · omega
        · omega
        · simp at hcontr
    | timeout =>
      simp only [Buffer.run] at hb
      by_cases he : entries.isEmpty
      · rw [if_pos he] at hb
        exact ih entries hlen b hb
      · rw [if_neg he] at hb
        rcases List.mem_cons.mp hb with hb | hb
        · subst hb
          dsimp only
          have hne : entries ≠ [] := by simpa [List.isEmpty_iff] using he
          have hpos : 0 < entries.length := List.length_pos.mpr hne
          refine ⟨⟨?_, ?_⟩, fun hcontr => ?_⟩
          · omega
          · omega
          · simp at hcontr
        · exact ih [] (by simpa using Nat.zero_lt_of_lt hlen) b hb

/-- A member of `(x :: l).dropLast` is either `x` (with `l` non-empty) or a
member of `l.dropLast`. -/
theorem mem_dropLast_cons {α : Type} {b x : α} {l : List α}
    (h : b ∈ (x :: l).dropLast) : (b = x ∧ l ≠ []) ∨ b ∈ l.dropLast := by
  cases l with
  | nil => simp [List.dropLast] at h
  | cons y ys =>
    rw [List.dropLast_cons₂] at h
    rcases List.mem_cons.mp h with h | h
    · exact Or.inl ⟨h, by simp⟩
    · exact Or.inr h

/-- A drain flush terminates the loop, so every flushed batch other than
the last was triggered by capacity or by the timer. -/
theorem run_dropLast_not_drain {α : Type} (capacity : ℕ) :
    ∀ (t : List (RecvResult α)) (entries : List α),
      ∀ b ∈ (Buffer.run capacity entries t).dropLast,
        b.1 = FlushReason.cap ∨ b.1 = FlushReason.timer := by
  intro t
  induction t with
  | nil => intro entries b hb; simp [Buffer.run] at hb
  | cons r rest ih =>
    intro entries b hb
    cases r with
    | recv e =>
      simp only [Buffer.run] at hb
      by_cases hc : capacity ≤ (entries ++ [e]).length
      · rw [if_pos hc] at hb
        rcases mem_dropLast_cons hb with ⟨hb1, _⟩ | hb
        · subst hb1; exact Or.inl rfl
        · exact ih [] b hb
      · rw [if_neg hc] at hb
        exact ih (entries ++ [e]) b hb
    | closed =>
      simp only [Buffer.run] at hb
      by_cases he : entries.isEmpty
      · rw [if_pos he] at hb; simp at hb
      · rw [if_neg he] at hb; simp [List.dropLast] at hb
    | timeout =>
      simp only [Buffer.run] at hb
      by_cases he : entries.isEmpty
      · rw [if_pos he] at hb
        exact ih entries b hb
      · rw [if_neg he] at hb
        rcases mem_dropLast_cons hb with ⟨hb1, _⟩ | hb
        · subst hb1; exact Or.inr rfl
        · exact ih [] b hb

/-- `dropLast` only keeps members of the list. -/
theorem mem_of_mem_dropLast {α : Type} {b : α} {l : List α}
    (h : b ∈ l.dropLast) : b ∈ l := by
  induction l with
  | nil => simp at h
  | cons x xs ih =>
    rcases mem_dropLast_cons h with ⟨rfl, _⟩ | h
    · exact List.mem_cons_self _ _
    · exact List.mem_cons_of_mem _ (ih h)

/-- Claim C1, amended: for positive capacity, every flushed batch has size
in `[1, capacity]` — so no batch ever exceeds the capacity and no final
flush occurs when nothing is pending at close — and every
capacity-triggered flush has size exactly `capacity`; the claim's
"every batch except possibly the last has size exactly `capacity`" holds
in the runs with no timer-triggered flush (a timer flush mid-run may be a
non-final batch of size `< capacity`). -/
theorem batch_sizing {α : Type} (capacity : ℕ) (t : List (RecvResult α))
    (hcap : 0 < capacity) :
    (∀ b ∈ Buffer.run capacity ([] : List α) t,
        (1 ≤ b.2.length ∧ b.2.length ≤ capacity)
        ∧ (b.1 = FlushReason.cap → b.2.length = capacity))
    ∧ ((∀ b ∈ Buffer.run capacity ([] : List α) t, b.1 ≠ FlushReason.timer) →
        ∀ b ∈ (Buffer.run capacity ([] : List α) t).dropLast,
          b.2.length = capacity) := by
  have hbounds := run_batch_bounds capacity t [] (by simpa using hcap)
  refine ⟨hbounds, ?_⟩
  intro hnt b hb
  have hmem := mem_of_mem_dropLast hb
  rcases run_dropLast_not_drain capacity t [] b hb with hr | hr
  · exact (hbounds b hmem).2 hr
  · exact absurd hr (hnt b hmem)

/-- Counterexample to claim C1 as stated: with capacity `2` and a timer
firing after one event, the run flushes `[0]` (size 1) and then `[1, 2]`
(size 2): the first, non-final batch does not have size `2`. -/
theorem batch_sizing_cex :
    ¬ (∀ b ∈ (Buffer.run 2 ([] : List ℕ)
          [RecvResult.recv 0, RecvResult.timeout, RecvResult.recv 1,
           RecvResult.recv 2, RecvResult.closed]).dropLast,
        b.2.length = 2) := by decide

/-- Witness for C1 (amended) at capacity `2`: the capacity-triggered batch
`[1, 2]` of a concrete run has size exactly `2`. -/
theorem batch_sizing_witness :
    0 < 2
    ∧ (FlushReason.cap, [1, 2]) ∈ Buffer.run 2 ([] : List ℕ)
        [RecvResult.recv 1, RecvResult.recv 2, RecvResult.closed]
    ∧ ((FlushReason.cap, ([1, 2] : List ℕ)).2).length = 2 :=
  ⟨by decide, by decide,
   ((batch_sizing 2 [RecvResult.recv 1, RecvResult.recv 2, RecvResult.closed]
      (by decide)).1 _ (by decide)).2 rfl⟩

/-- Concatenation of all flushed batches of a run that ends with channel
closure: exactly the pending entries followed by every event received on
the channel. -/
theorem run_join {α : Type} (capacity : ℕ) :
    ∀ (t : List (RecvResult α)) (entries : List α), RecvResult.closed ∉ t →
      ((Buffer.run capacity entries (t ++ [RecvResult.closed])).map
          (fun b => b.2)).flatten
        = entries ++ Buffer.sentEvents t := by
  intro t
  induction t with
  | nil =>
    intro entries _
    simp only [List.nil_append, Buffer.run, Buffer.sentEvents, List.filterMap_nil]
    by_cases he : entries.isEmpty
    · rw [if_pos he]
      simp [List.isEmpty_iff.mp he]
    · rw [if_neg he]
      simp
  | cons r rest ih =>
    intro entries hnc
    have hnc1 : RecvResult.closed ∉ rest := fun h => hnc (List.mem_cons_of_mem _ h)
    cases r with
    | recv e =>
      simp only [List.cons_append, Buffer.run, List.append_eq]
      by_cases hc : capacity ≤ (entries ++ [e]).length
      · rw [if_pos hc]
        simp only [List.map_cons, List.flatten_cons]
        rw [ih [] hnc1]
        simp [Buffer.sentEvents]
      · rw [if_neg hc]
        rw [ih (entries ++ [e]) hnc1]
        simp [Buffer.sentEvents]
    | closed => exact absurd (List.mem_cons_self _ _) hnc
    | timeout =>
      simp only [List.cons_append, Buffer.run, List.append_eq]
      by_cases he : entries.isEmpty
      · rw [if_pos he]
        rw [ih entries hnc1]
        simp [Buffer.sentEvents]
      · rw [if_neg he]
        simp only [List.map_cons, List.flatten_cons]
        rw [ih [] hnc1]
        simp [Buffer.sentEvents]

/-- Claim C2: in a finite run (a trace ending with channel closure), the
concatenation of all flushed batches is exactly the sequence of events
received from the channel — no event is lost or duplicated — and hence the
sum of the flushed batch sizes equals the number of events successfully
sent. -/
theorem no_loss {α : Type} (capacity : ℕ) (t : List (RecvResult α))
    (h : RecvResult.closed ∉ t) :
    ((Buffer.run capacity ([] : List α) (t ++ [RecvResult.closed])).map
        (fun b => b.2)).flatten = Buffer.sentEvents t
    ∧ ((Buffer.run capacity ([] : List α) (t ++ [RecvResult.closed])).map
        (fun b => b.2.length)).sum = (Buffer.sentEvents t).length := by
  have hj := run_join capacity t [] h
  simp only [List.nil_append] at hj
  refine ⟨hj, ?_⟩
  have : ((Buffer.run capacity ([] : List α) (t ++ [RecvResult.closed])).map
      (fun b => b.2.length))
      = ((Buffer.run capacity ([] : List α) (t ++ [RecvResult.closed])).map
          (fun b => b.2)).map List.length := by
    rw [List.map_map]; rfl
  rw [this, ← List.length_flatten, hj]

/-- Witness for C2 on a concrete three-event trace with a timer flush. -/
theorem no_loss_witness :
    RecvResult.closed ∉ [RecvResult.recv 5, RecvResult.timeout, RecvResult.recv 6]
    ∧ ((Buffer.run 2 ([] : List ℕ)
          ([RecvResult.recv 5, RecvResult.timeout, RecvResult.recv 6]
            ++ [RecvResult.closed])).map (fun b => b.2)).flatten
        = Buffer.sentEvents [RecvResult.recv 5, RecvResult.timeout, RecvResult.recv 6] :=
  ⟨by decide,
   (no_loss 2 [RecvResult.recv 5, RecvResult.timeout, RecvResult.recv 6]
     (by decide)).1⟩

/-- Claim C5: sinks are never invoked with an empty batch — every batch
flushed by the loop is non-empty — and a trace of timer expirations with
nothing pending produces no flush at all. -/
theorem no_empty_flush {α : Type} (capacity : ℕ) :
    (∀ (entries : List α) (t : List (RecvResult α)),
        ∀ b ∈ Buffer.run capacity entries t, b.2 ≠ [])
    ∧ (∀ n : ℕ,
        Buffer.run capacity ([] : List α) (List.replicate n RecvResult.timeout)
          = []) := by
  constructor
  · intro entries t
    induction t generalizing entries with
    | nil => intro b hb; simp [Buffer.run] at hb
    | cons r rest ih =>
      intro b hb
      cases r with
      | recv e =>
        simp only [Buffer.run] at hb
        by_cases hc : capacity ≤ (entries ++ [e]).length
        · rw [if_pos hc] at hb
          rcases List.mem_cons.mp hb with hb | hb
          · subst hb; simp
          · exact ih [] b hb
        · rw [if_neg hc] at hb
          exact ih (entries ++ [e]) b hb
      | closed =>
        simp only [Buffer.run] at hb
        by_cases he : entries.isEmpty
        · rw [if_pos he] at hb; simp at hb
        · rw [if_neg he] at hb
          have hb2 := List.mem_singleton.mp hb
          subst hb2
          simpa [List.isEmpty_iff] using he
      | timeout =>
        simp only [Buffer.run] at hb
        by_cases he : entries.isEmpty
        · rw [if_pos he] at hb
          exact ih entries b hb
        · rw [if_neg he] at hb
          rcases List.mem_cons.mp hb with hb | hb
          · subst hb
            simpa [List.isEmpty_iff] using he
          · exact ih [] b hb
  · intro n
    induction n with
    | zero => simp [Buffer.run]
    | succ m ih =>
      rw [List.replicate_succ]
      simp only [Buffer.run, List.isEmpty_nil, if_pos]
      exact ih

/-- Witness for C5: the timer flush of a concrete run carries a non-empty
batch, and three idle timer expirations flush nothing. -/
theorem no_empty_flush_witness :
    (FlushReason.timer, ([5] : List ℕ)) ∈ Buffer.run 2 ([] : List ℕ)
        [RecvResult.recv 5, RecvResult.timeout]
    ∧ (FlushReason.timer, ([5] : List ℕ)).2 ≠ []
    ∧ Buffer.run 2 ([] : List ℕ) (List.replicate 3 RecvResult.timeout) = [] :=
  ⟨by decide,
   (no_empty_flush 2).1 [] [RecvResult.recv 5, RecvResult.timeout]
     (FlushReason.timer, ([5] : List ℕ)) (by decide),
   (no_empty_flush 2).2 3⟩

/-- The loop has executed its `break` exactly when the trace contains the
channel-closed outcome, whatever the pending batch was. -/
theorem terminated_iff_closed {α : Type} (capacity : ℕ) :
    ∀ (t : List (RecvResult α)) (entries : List α),
      Buffer.terminated capacity entries t = true ↔ RecvResult.closed ∈ t := by
  intro t
  induction t with
  | nil => intro entries; simp [Buffer.terminated]
  | cons r rest ih =>
    intro entries
    cases r with
    | recv e =>
      simp only [Buffer.terminated]
      by_cases hc : capacity ≤ (entries ++ [e]).length
      · rw [if_pos hc, ih []]
        simp
      · rw [if_neg hc, ih (entries ++ [e])]
        simp
    | closed => simp [Buffer.terminated]
    | timeout =>
      simp only [Buffer.terminated]
      by_cases he : entries.isEmpty
      · rw [if_pos he, ih entries]
        simp
      · rw [if_neg he, ih []]
        simp

/-- Claim C6: on channel closure the loop flushes the pending batch exactly
once if it is non-empty (nothing otherwise) and breaks — the rest of the
trace causes no further flush — and the closed-channel outcome is the only
way the loop terminates. -/
theorem closed_drains_then_stops {α : Type} (capacity : ℕ) (entries : List α)
    (rest : List (RecvResult α)) :
    Buffer.run capacity entries (RecvResult.closed :: rest)
        = (if entries.isEmpty then [] else [(FlushReason.drain, entries)])
    ∧ Buffer.terminated capacity entries (RecvResult.closed :: rest) = true
    ∧ (∀ (es : List α) (t : List (RecvResult α)),
        Buffer.terminated capacity es t = true ↔ RecvResult.closed ∈ t) :=
  ⟨rfl, rfl, fun es t => terminated_iff_closed capacity t es⟩

/-! ## Sink dispatch (`Buffer::flush`, `trait Sink`) -/

/-- `Buffer::flush` hands the batch to every sink: each sink's record of
received batches grows by exactly this batch, whatever any sink's failure
behaviour is. -/
theorem flush_received {α : Type} :
    ∀ (sinks : List (SinkModel α)) (batch : List α),
      (Buffer.flush sinks batch).1
        = sinks.map (fun s => { s with received := s.received ++ [batch] }) := by
  intro sinks batch
  induction sinks with
  | nil => simp [Buffer.flush]
  | cons s rest ih => simp [Buffer.flush, SinkModel.write, ih]

/-- The write results reported by one flush are each sink's own verdict on
this batch, in registration order. -/
theorem flush_results {α : Type} :
    ∀ (sinks : List (SinkModel α)) (batch : List α),
      (Buffer.flush sinks batch).2 = sinks.map (fun s => !s.fails batch) := by
  intro sinks batch
  induction sinks with
  | nil => simp [Buffer.flush]
  | cons s rest ih => simp [Buffer.flush, SinkModel.write, ih]

/-- Folding flushes over a batch list appends exactly those batches to
every sink's record. -/
theorem pipeline_foldl {α : Type} :
    ∀ (bs : List (FlushReason × List α)) (sinks : List (SinkModel α)),
      (bs.foldl (fun ss b => (Buffer.flush ss b.2).1) sinks).map
          (fun s => s.received)
        = sinks.map (fun s => s.received ++ bs.map (fun b => b.2)) := by
  intro bs
  induction bs with
  | nil => intro sinks; simp
  | cons b rest ih =>
    intro sinks
    rw [List.foldl_cons, ih, flush_received]
    simp [List.map_map, Function.comp_def, List.append_assoc]

/-- Claim C4: on every flush, `write` is called once per registered sink in
registration order with the full batch; a failing sink neither deprives
any later sink of the batch, nor stops the pipeline, nor triggers a retry:
over a whole run, every sink's received history is exactly the run's
flushed batches, each delivered once, independently of every failure
function. -/
theorem sink_isolation {α : Type} :
    (∀ (sinks : List (SinkModel α)) (batch : List α),
        ((Buffer.flush sinks batch).1).map (fun s => s.received)
          = sinks.map (fun s => s.received ++ [batch])
        ∧ ((Buffer.flush sinks batch).1).map (fun s => s.fails)
          = sinks.map (fun s => s.fails)
        ∧ (Buffer.flush sinks batch).2 = sinks.map (fun s => !s.fails batch))
    ∧ (∀ (capacity : ℕ) (sinks : List (SinkModel α))
        (t : List (RecvResult α)),
        (Buffer.pipeline capacity sinks t).map (fun s => s.received)
          = sinks.map (fun s =>
              s.received ++ (Buffer.run capacity ([] : List α) t).map
                (fun b => b.2))) := by
  constructor
  · intro sinks batch
    refine ⟨?_, ?_, flush_results sinks batch⟩
    · rw [flush_received]
      simp [List.map_map, Function.comp_def]
    · rw [flush_received]
      simp [List.map_map, Function.comp_def]
  · intro capacity sinks t
    exact pipeline_foldl (Buffer.run capacity ([] : List α) t) sinks
